import Mathlib

/-
Verification of the content-addressed backup engine in exampleScripts/backup.py.

The embedding models one backup invocation.  The environment `Env` fixes the
contents of the source filesystem, the digest function (sha256sum is a pure
function of file content), per-path failure behaviour of `file_hash`
(an exception while hashing) and of `subprocess.call(['cp', ...])`
(either the call itself raises, or cp runs and returns an exit status —
note the script discards that status), plus the exclusion patterns and the
regular-expression search primitive used by `make_predicate`.
-/

namespace BackupPy

/-- File content as a byte list. -/
abbrev Content := List Nat

/-- The deterministic environment of one backup run. -/
structure Env where
  /-- content of the file at each source path -/
  fs : String → Content
  /-- `file_hash`: sha256 hex digest as a pure function of content -/
  hashFn : Content → String
  /-- whether `file_hash(fn)` raises for this path (unreadable file) -/
  hashFails : String → Bool
  /-- whether `subprocess.call(['cp', fn, blob_path])` itself raises
      (exec/spawn failure); only then does the script's except-branch
      fire and skip the file -/
  cpSpawnFails : String → Bool
  /-- exit status of cp for this source path; 0 means the blob was written -/
  cpExit : String → Nat
  /-- `re.search`: whether a pattern is found somewhere inside a string -/
  search : String → String → Bool
  /-- the exclusion pattern list handed to `make_predicate` -/
  excludePats : List String

/-- `make_predicate(tests)`: a path is excluded iff some pattern is found in it. -/
def make_predicate (search : String → String → Bool) (tests : List String) :
    String → Bool :=
  fun fn => tests.any fun t => search t fn

/-- The `exclude` predicate built at the top of `backup`. -/
def Env.exclude (e : Env) (fn : String) : Bool :=
  make_predicate e.search e.excludePats fn

/-- Python dict assignment `m[k] = v` on an association list. -/
def dictInsert (m : List (String × String)) (k v : String) :
    List (String × String) :=
  if m.any fun kv => kv.1 = k then
    m.map fun kv => if kv.1 = k then (k, v) else kv
  else m ++ [(k, v)]

/-- Python dict lookup `m[k]` / `k in m`. -/
def lookup? (m : List (String × String)) (k : String) : Option String :=
  (m.find? fun kv => kv.1 = k).map fun kv => kv.2

/-- A file stored in a first-level subdirectory of the destination:
    blobs live at `dest/<digest[:2]>/<digest>`. -/
structure Blob where
  dir : String
  name : String
  content : Content
deriving DecidableEq, Repr

/-- `blob_path.exists()` for the blob of digest `h`. -/
def blobExists (blobs : List Blob) (h : String) : Bool :=
  blobs.any fun b => b.dir = h.take 2 && b.name = h

/-- In-run state of `backup`: the `manifest` dict (filename → hash), the
    `collision_check` dict (hash → filename) and the destination files. -/
structure BState where
  manifest : List (String × String)
  collisionCheck : List (String × String)
  blobs : List Blob
deriving DecidableEq, Repr

/-- The data printed by the `Hash collision!!!` abort: the offending file,
    the file recorded in `collision_check`, and the shared digest. -/
structure Collision where
  newPath : String
  recordedPath : String
  digest : String
deriving DecidableEq, Repr

/-- Lines 68–81 of `backup`: attempt the blob write if absent, then record
    the file in `manifest` and `collision_check`.  A spawn failure of cp is
    caught and the file skipped; a nonzero cp exit status is discarded, so
    the file is recorded even though no blob was written. -/
def recordFile (e : Env) (st : BState) (fn hsh : String) :
    Except Collision BState :=
  if blobExists st.blobs hsh then
    .ok { st with
          manifest := dictInsert st.manifest fn hsh
          collisionCheck := dictInsert st.collisionCheck hsh fn }
  else if e.cpSpawnFails fn then
    .ok st
  else
    .ok { st with
          blobs :=
            if e.cpExit fn = 0 then
              st.blobs ++ [⟨hsh.take 2, hsh, e.fs fn⟩]
            else st.blobs
          manifest := dictInsert st.manifest fn hsh
          collisionCheck := dictInsert st.collisionCheck hsh fn }

/-- The per-file body of the walk loop in `backup` (lines 55–81):
    exclusion check, hashing, the collision check against
    `collision_check[hsh]` (`files_identical` compares file contents),
    then the blob write and recording. -/
def processFile (e : Env) (st : BState) (fn : String) :
    Except Collision BState :=
  if e.exclude fn then .ok st
  else if e.hashFails fn then .ok st
  else
    match lookup? st.collisionCheck (e.hashFn (e.fs fn)) with
    | some recorded =>
        if e.fs fn = e.fs recorded then
          recordFile e st fn (e.hashFn (e.fs fn))
        else
          .error ⟨fn, recorded, e.hashFn (e.fs fn)⟩
    | none => recordFile e st fn (e.hashFn (e.fs fn))

/-- The whole walk over all files of all source trees, in walk order.
    An uncaught `Hash collision` exception carries the state reached
    when it was raised. -/
def runFiles (e : Env) : List String → BState → Except (Collision × BState) BState
  | [], st => .ok st
  | fn :: rest, st =>
    match processFile e st fn with
    | .error c => .error (c, st)
    | .ok st1 => runFiles e rest st1

/-- Python string comparison `<`: lexicographic by code point. -/
def charListLt : List Char → List Char → Bool
  | [], [] => false
  | [], _ :: _ => true
  | _ :: _, [] => false
  | c :: cs, d :: ds => if c = d then charListLt cs ds else decide (c < d)

/-- Python string comparison on whole strings. -/
def strLt (a b : String) : Bool :=
  charListLt a.data b.data

/-- Python tuple comparison on `(filename, hash)` pairs, as used by
    `sorted(manifest.items())`. -/
def pairLe (x y : String × String) : Bool :=
  if x.1 = y.1 then x.2 = y.2 || strLt x.2 y.2 else strLt x.1 y.1

/-- Insertion step of the stable sort of manifest items. -/
def insertPair (x : String × String) :
    List (String × String) → List (String × String)
  | [] => [x]
  | y :: ys => if pairLe x y then x :: y :: ys else y :: insertPair x ys

/-- `sorted(manifest.items())`. -/
def sortPairs (l : List (String × String)) : List (String × String) :=
  l.foldr insertPair []

/-- Lines 84–85: the serialized manifest, one line `hash TAB filename`
    per entry, sorted by filename. -/
def manifestLines (manifest : List (String × String)) : List String :=
  (sortPairs manifest).map fun kv => kv.2 ++ "\t" ++ kv.1

/-- Lines 88–92: purge removes every file in a first-level destination
    subdirectory whose name is not a key of `collision_check`. -/
def purgeBlobs (blobs : List Blob) (cc : List (String × String)) : List Blob :=
  blobs.filter fun b => cc.any fun kv => kv.1 = b.name

/-- Observable destination contents: the files in the blob shard
    directories, and the contents of `dest/manifest` (as a line list)
    if that file exists. -/
structure Dest where
  blobs : List Blob
  manifestFile : Option (List String)
deriving DecidableEq, Repr

/-- `backup(sources, excludes, dest, purge)`: walk all files, then write
    the manifest, then optionally purge.  The uncaught collision exception
    leaves the blobs written so far on disk and the manifest file untouched
    (the manifest write at line 84 is only reached after the full walk). -/
def backup (e : Env) (files : List String) (dest : Dest) (purge : Bool) :
    Except (Collision × Dest) Dest :=
  match runFiles e files ⟨[], [], dest.blobs⟩ with
  | .error (c, st) => .error (c, ⟨st.blobs, dest.manifestFile⟩)
  | .ok st =>
      .ok ⟨if purge then purgeBlobs st.blobs st.collisionCheck else st.blobs,
           some (manifestLines st.manifest)⟩

/-- `os.path.join(a, b)` for POSIX paths, the meaning of `path.__div__`
    used by `dest / fn` in `restore`: an absolute right operand discards
    the left operand. -/
def osPathJoin (a b : String) : String :=
  if "/".data.isPrefixOf b.data then b
  else if a = "" ∨ a.data.getLast? = some '/' then a ++ b
  else a ++ "/" ++ b

/-- The `restore` loop over parsed manifest entries `(hash, filename)`.
    Returns the list of target paths written, in order, and the digest of
    the first missing blob if one was hit: `hsh.copy(fn)` raises when the
    blob file is absent, and nothing catches it, so no later entry is
    processed. -/
def restore (sel : String → Bool) (blobPresent : String → Bool)
    (destDir : String) :
    List (String × String) → List String × Option String
  | [] => ([], none)
  | (hsh, fn) :: rest =>
    if sel fn then
      if blobPresent hsh then
        match restore sel blobPresent destDir rest with
        | (written, err) => (osPathJoin destDir fn :: written, err)
      else ([], some hsh)
    else restore sel blobPresent destDir rest

/-- Contents observable at `dest/manifest` while `write_lines` runs.
    Modelled from path.py (external dependency of the script):
    `write_lines` opens the target path itself in write mode — truncating
    it — and appends one line at a time, so the observable contents during
    the write are exactly the prefixes of the final line list.  There is
    no temporary file and no rename in `backup`. -/
def manifestWriteStates (lines : List String) : List (List String) :=
  (List.range (lines.length + 1)).map fun i => lines.take i

/-- A run with two files of different content forced to the same digest
    (test double for the hash), everything else succeeding. -/
def envCollide : Env where
  fs := fun p => if p = "/a" then [0] else [1]
  hashFn := fun _ => "hh"
  hashFails := fun _ => false
  cpSpawnFails := fun _ => false
  cpExit := fun _ => 0
  search := fun _ _ => false
  excludePats := []

/-- As `envCollide`, but `subprocess.call` raises for the first file, so
    the first file is skipped and never enters `collision_check`. -/
def envSkipCollide : Env where
  fs := fun p => if p = "/a" then [0] else [1]
  hashFn := fun _ => "hh"
  hashFails := fun _ => false
  cpSpawnFails := fun p => p = "/a"
  cpExit := fun _ => 0
  search := fun _ _ => false
  excludePats := []

/-- Two files with identical content (ordinary deduplication), everything
    succeeding. -/
def envDup : Env where
  fs := fun _ => [1]
  hashFn := fun c => if c = [1] then "abcd" else "zzzz"
  hashFails := fun _ => false
  cpSpawnFails := fun _ => false
  cpExit := fun _ => 0
  search := fun _ _ => false
  excludePats := []

/-- A single file whose blob copy fails with a nonzero cp exit status
    (e.g. disk full at the destination). -/
def envCpFail : Env where
  fs := fun _ => [1]
  hashFn := fun c => if c = [1] then "abcd" else "zzzz"
  hashFails := fun _ => false
  cpSpawnFails := fun _ => false
  cpExit := fun p => if p = "/a" then 1 else 0
  search := fun _ _ => false
  excludePats := []

/-- A fully successful environment with content-distinguishing digests. -/
def envOne : Env where
  fs := fun p => if p = "/a" then [1] else [2]
  hashFn := fun c => if c = [1] then "abcd" else "efgh"
  hashFails := fun _ => false
  cpSpawnFails := fun _ => false
  cpExit := fun _ => 0
  search := fun _ _ => false
  excludePats := []

/-- An environment whose exclusion list excludes exactly `/a`
    (the search primitive here is a prefix test). -/
def envExcl : Env where
  fs := fun p => if p = "/a" then [1] else [2]
  hashFn := fun c => if c = [1] then "abcd" else "efgh"
  hashFails := fun _ => false
  cpSpawnFails := fun _ => false
  cpExit := fun _ => 0
  search := fun t fn => t.data.isPrefixOf fn.data
  excludePats := ["/a"]

/-- The master invariant of the scan state: manifest digests are the
    content digests of their paths, both dicts have unique keys, the
    digests referenced by the manifest are exactly the keys of
    `collision_check`, and every manifest entry sharing a digest with a
    `collision_check` entry has the same content as the recorded file. -/
structure Inv (e : Env) (st : BState) : Prop where
  mdigest : ∀ p h, (p, h) ∈ st.manifest → h = e.hashFn (e.fs p)
  mkeys : (st.manifest.map Prod.fst).Nodup
  cckeys : (st.collisionCheck.map Prod.fst).Nodup
  ccdigest : ∀ h p, (h, p) ∈ st.collisionCheck → e.hashFn (e.fs p) = h
  keysEq : ∀ h, (∃ p, (h, p) ∈ st.collisionCheck) ↔ ∃ p, (p, h) ∈ st.manifest
  agree : ∀ h p q, (h, p) ∈ st.collisionCheck → (q, h) ∈ st.manifest →
    e.fs q = e.fs p

/-- After a file with digest `e.hashFn (e.fs a)` has been accepted,
    `collision_check` holds, under that digest, a path whose content
    equals that of `a`. -/
def SameAs (e : Env) (a : String) (st : BState) : Prop :=
  ∃ p, lookup? st.collisionCheck (e.hashFn (e.fs a)) = some p ∧
    e.fs p = e.fs a

end BackupPy

namespace BackupPy

theorem lookup?_nil (k : String) : lookup? [] k = none := rfl

theorem lookup?_cons (kv : String × String) (m : List (String × String))
    (k : String) :
    lookup? (kv :: m) k = if kv.1 = k then some kv.2 else lookup? m k := by
  by_cases h : kv.1 = k
  · simp [lookup?, List.find?_cons_of_pos, h]
  · simp [lookup?, List.find?_cons_of_neg, h]

theorem lookup?_replace_self (m : List (String × String)) (k v : String)
    (h : (m.any fun kv => kv.1 = k) = true) :
    lookup? (m.map fun kv => if kv.1 = k then (k, v) else kv) k = some v := by
  induction m with
  | nil => simp at h
  | cons kv m ih =>
    simp only [List.any_cons, Bool.or_eq_true, decide_eq_true_eq] at h
    by_cases hk : kv.1 = k
    · simp [lookup?_cons, hk]
    · simp only [List.map_cons, if_neg hk]
      rw [lookup?_cons]
      simp only [hk, if_false]
      rcases h with h | h
      · exact absurd h hk
      · exact ih h

theorem lookup?_replace_ne (m : List (String × String)) (k v k1 : String)
    (hne : k1 ≠ k) :
    lookup? (m.map fun kv => if kv.1 = k then (k, v) else kv) k1 =
      lookup? m k1 := by
  induction m with
  | nil => rfl
  | cons kv m ih =>
    by_cases hk : kv.1 = k
    · simp only [List.map_cons, if_pos hk]
      rw [lookup?_cons, lookup?_cons]
      have h1 : ¬((k, v).1 = k1) := fun h => hne h.symm
      have h2 : ¬(kv.1 = k1) := by rw [hk]; exact fun h => hne h.symm
      simp [h1, h2, ih]
    · simp only [List.map_cons, if_neg hk]
      rw [lookup?_cons, lookup?_cons]
      by_cases hw : kv.1 = k1
      · simp [hw]
      · simp [hw, ih]

theorem lookup?_append_single (m : List (String × String)) (k v k1 : String)
    (h : (m.any fun kv => kv.1 = k) = false) :
    lookup? (m ++ [(k, v)]) k1 = if k1 = k then some v else lookup? m k1 := by
  induction m with
  | nil =>
    rw [List.nil_append, lookup?_cons]
    by_cases hk : k1 = k
    · simp [hk]
    · have hk2 : ¬(k = k1) := fun hh => hk hh.symm
      simp [lookup?_nil, hk, hk2]
  | cons kv m ih =>
    simp only [List.any_cons, Bool.or_eq_false_iff, decide_eq_false_iff_not]
      at h
    rw [List.cons_append, lookup?_cons, lookup?_cons]
    by_cases hw : kv.1 = k1
    · have hk1 : k1 ≠ k := by rw [← hw]; exact h.1
      simp [hw, hk1]
    · simp [hw, ih h.2]

theorem lookup?_dictInsert (m : List (String × String)) (k v k1 : String) :
    lookup? (dictInsert m k v) k1 = if k1 = k then some v else lookup? m k1 := by
  unfold dictInsert
  by_cases hany : (m.any fun kv => kv.1 = k) = true
  · rw [if_pos hany]
    by_cases hk : k1 = k
    · subst hk
      rw [lookup?_replace_self m k1 v hany]
      simp
    · rw [lookup?_replace_ne m k v k1 hk, if_neg hk]
  · rw [if_neg hany]
    exact lookup?_append_single m k v k1 (Bool.eq_false_iff.mpr hany)

theorem lookup?_dictInsert_self (m : List (String × String)) (k v : String) :
    lookup? (dictInsert m k v) k = some v := by
  rw [lookup?_dictInsert]; simp

theorem lookup?_dictInsert_ne (m : List (String × String)) (k v k1 : String)
    (hne : k1 ≠ k) :
    lookup? (dictInsert m k v) k1 = lookup? m k1 := by
  rw [lookup?_dictInsert, if_neg hne]

theorem mem_dictInsert (m : List (String × String)) (k v a b : String)
    (h : (a, b) ∈ dictInsert m k v) :
    (a = k ∧ b = v) ∨ (a ≠ k ∧ (a, b) ∈ m) := by
  unfold dictInsert at h
  by_cases hany : (m.any fun kv => kv.1 = k) = true
  · rw [if_pos hany] at h
    rcases List.mem_map.mp h with ⟨kv, hkv, heq⟩
    by_cases hk : kv.1 = k
    · rw [if_pos hk] at heq
      injection heq with h1 h2
      exact Or.inl ⟨h1.symm, h2.symm⟩
    · rw [if_neg hk] at heq
      refine Or.inr ⟨?_, heq ▸ hkv⟩
      intro hak
      apply hk
      rw [heq]
      exact hak
  · rw [if_neg hany] at h
    rcases List.mem_append.mp h with h | h
    · refine Or.inr ⟨?_, h⟩
      intro hak
      exact hany (List.any_eq_true.mpr ⟨(a, b), h, by simp [hak]⟩)
    · rcases List.mem_singleton.mp h with h
      injection h with h1 h2
      exact Or.inl ⟨h1, h2⟩

theorem mem_dictInsert_of_mem_ne (m : List (String × String)) (k v a b : String)
    (hne : a ≠ k) (h : (a, b) ∈ m) : (a, b) ∈ dictInsert m k v := by
  unfold dictInsert
  by_cases hany : (m.any fun kv => kv.1 = k) = true
  · rw [if_pos hany]
    exact List.mem_map.mpr ⟨(a, b), h, by simp [hne]⟩
  · rw [if_neg hany]
    exact List.mem_append_left _ h

theorem self_mem_dictInsert (m : List (String × String)) (k v : String) :
    (k, v) ∈ dictInsert m k v := by
  unfold dictInsert
  by_cases hany : (m.any fun kv => kv.1 = k) = true
  · rw [if_pos hany]
    rcases List.any_eq_true.mp hany with ⟨kv, hkv, hk⟩
    simp only [decide_eq_true_eq] at hk
    exact List.mem_map.mpr ⟨kv, hkv, by simp [hk]⟩
  · rw [if_neg hany]
    exact List.mem_append_right _ (by simp)

theorem keys_dictInsert (m : List (String × String)) (k v : String) :
    (dictInsert m k v).map Prod.fst =
      if (m.any fun kv => kv.1 = k) = true then m.map Prod.fst
      else m.map Prod.fst ++ [k] := by
  unfold dictInsert
  by_cases hany : (m.any fun kv => kv.1 = k) = true
  · rw [if_pos hany, if_pos hany, List.map_map]
    refine List.map_congr_left ?_
    intro kv _
    by_cases hk : kv.1 = k
    · simp [hk]
    · simp [hk]
  · rw [if_neg hany, if_neg hany, List.map_append]
    rfl

theorem keys_nodup_dictInsert (m : List (String × String)) (k v : String)
    (hnd : (m.map Prod.fst).Nodup) :
    ((dictInsert m k v).map Prod.fst).Nodup := by
  rw [keys_dictInsert]
  by_cases hany : (m.any fun kv => kv.1 = k) = true
  · rw [if_pos hany]; exact hnd
  · rw [if_neg hany]
    refine List.Nodup.append hnd (List.nodup_singleton k) ?_
    intro a ha hb
    rcases List.mem_singleton.mp hb with rfl
    rcases List.mem_map.mp ha with ⟨kv, hkv, hk⟩
    exact hany (List.any_eq_true.mpr ⟨kv, hkv, by simp [hk]⟩)

theorem not_mem_of_lookup?_none (m : List (String × String)) (k : String)
    (h : lookup? m k = none) : ∀ v, (k, v) ∉ m := by
  intro v hv
  unfold lookup? at h
  rw [Option.map_eq_none'] at h
  have := List.find?_eq_none.mp h (k, v) hv
  simp at this

theorem mem_of_lookup?_some (m : List (String × String)) (k v : String)
    (h : lookup? m k = some v) : (k, v) ∈ m := by
  unfold lookup? at h
  rcases Option.map_eq_some'.mp h with ⟨kv, hfind, hv⟩
  have hm := List.mem_of_find?_eq_some hfind
  have hp := List.find?_some hfind
  simp only [decide_eq_true_eq] at hp
  obtain ⟨k1, v1⟩ := kv
  simp only at hp hv
  rw [hp, hv] at hm
  exact hm

theorem lookup?_some_of_mem (m : List (String × String)) (k v : String)
    (hnd : (m.map Prod.fst).Nodup) (h : (k, v) ∈ m) :
    lookup? m k = some v := by
  induction m with
  | nil => simp at h
  | cons kv m ih =>
    rw [lookup?_cons]
    simp only [List.map_cons, List.nodup_cons] at hnd
    rcases List.mem_cons.mp h with h | h
    · simp [← h]
    · by_cases hk : kv.1 = k
      · exact absurd (hk ▸ List.mem_map.mpr ⟨(k, v), h, rfl⟩) hnd.1
      · simp only [hk, if_false]
        exact ih hnd.2 h

theorem lookup?_some_of_key_mem (m : List (String × String)) (k v : String)
    (h : (k, v) ∈ m) : ∃ w, lookup? m k = some w := by
  cases hl : lookup? m k with
  | none => exact absurd h (not_mem_of_lookup?_none m k hl v)
  | some w => exact ⟨w, rfl⟩

theorem recordFile_ok (e : Env) (st st1 : BState) (fn hsh : String)
    (h : recordFile e st fn hsh = .ok st1) :
    (blobExists st.blobs hsh = false ∧ e.cpSpawnFails fn = true ∧ st1 = st) ∨
    ∃ bl, st1 = ⟨dictInsert st.manifest fn hsh,
                 dictInsert st.collisionCheck hsh fn, bl⟩ := by
  unfold recordFile at h
  by_cases hb : blobExists st.blobs hsh = true
  · rw [if_pos hb] at h
    injection h with h
    exact Or.inr ⟨st.blobs, h.symm⟩
  · rw [if_neg hb] at h
    by_cases hs : e.cpSpawnFails fn = true
    · rw [if_pos hs] at h
      injection h with h
      exact Or.inl ⟨Bool.eq_false_iff.mpr hb, hs, h.symm⟩
    · rw [if_neg hs] at h
      injection h with h
      refine Or.inr ⟨_, h.symm⟩

theorem inv_init (e : Env) (bl : List Blob) : Inv e ⟨[], [], bl⟩ := by
  refine ⟨?_, ?_, ?_, ?_, ?_, ?_⟩
  · intro p h hm; simp at hm
  · simp
  · simp
  · intro h p hm; simp at hm
  · intro h; constructor
    · rintro ⟨p, hp⟩; simp at hp
    · rintro ⟨p, hp⟩; simp at hp
  · intro h p q hcc hm; simp at hcc

theorem inv_record (e : Env) (st : BState) (fn : String) (bl : List Blob)
    (hInv : Inv e st)
    (hcheck : ∀ p, lookup? st.collisionCheck (e.hashFn (e.fs fn)) = some p →
      e.fs fn = e.fs p) :
    Inv e ⟨dictInsert st.manifest fn (e.hashFn (e.fs fn)),
           dictInsert st.collisionCheck (e.hashFn (e.fs fn)) fn, bl⟩ := by
  refine ⟨?_, ?_, ?_, ?_, ?_, ?_⟩
  · intro p h hm
    rcases mem_dictInsert _ _ _ _ _ hm with ⟨rfl, rfl⟩ | ⟨hne, hm0⟩
    · rfl
    · exact hInv.mdigest p h hm0
  · exact keys_nodup_dictInsert _ _ _ hInv.mkeys
  · exact keys_nodup_dictInsert _ _ _ hInv.cckeys
  · intro h p hm
    rcases mem_dictInsert _ _ _ _ _ hm with ⟨rfl, rfl⟩ | ⟨hne, hm0⟩
    · rfl
    · exact hInv.ccdigest h p hm0
  · intro h
    by_cases hh : h = e.hashFn (e.fs fn)
    · subst hh
      exact iff_of_true ⟨fn, self_mem_dictInsert _ _ _⟩
        ⟨fn, self_mem_dictInsert _ _ _⟩
    · constructor
      · rintro ⟨p, hp⟩
        rcases mem_dictInsert _ _ _ _ _ hp with ⟨hk, _⟩ | ⟨_, hp0⟩
        · exact absurd hk hh
        · rcases (hInv.keysEq h).mp ⟨p, hp0⟩ with ⟨q, hq⟩
          by_cases hqfn : q = fn
          · subst hqfn
            exact absurd (hInv.mdigest q h hq) hh
          · exact ⟨q, mem_dictInsert_of_mem_ne _ _ _ _ _ hqfn hq⟩
      · rintro ⟨q, hq⟩
        rcases mem_dictInsert _ _ _ _ _ hq with ⟨_, hk⟩ | ⟨hne, hq0⟩
        · exact absurd hk hh
        · rcases (hInv.keysEq h).mpr ⟨q, hq0⟩ with ⟨p, hp⟩
          exact ⟨p, mem_dictInsert_of_mem_ne _ _ _ _ _ hh hp⟩
  · intro h p q hcc hm
    rcases mem_dictInsert _ _ _ _ _ hcc with ⟨rfl, rfl⟩ | ⟨hne, hcc0⟩
    · rcases mem_dictInsert _ _ _ _ _ hm with ⟨rfl, _⟩ | ⟨hne', hm0⟩
      · rfl
      · rcases (hInv.keysEq (e.hashFn (e.fs p))).mpr ⟨q, hm0⟩ with ⟨p0, hp0⟩
        have hl := lookup?_some_of_mem _ _ _ hInv.cckeys hp0
        have h1 := hcheck p0 hl
        have h2 := hInv.agree _ _ _ hp0 hm0
        rw [h2, ← h1]
    · rcases mem_dictInsert _ _ _ _ _ hm with ⟨_, hk⟩ | ⟨_, hm0⟩
      · exact absurd hk hne
      · exact hInv.agree h p q hcc0 hm0

theorem inv_processFile (e : Env) (st st1 : BState) (fn : String)
    (hInv : Inv e st) (h : processFile e st fn = .ok st1) : Inv e st1 := by
  unfold processFile at h
  by_cases hex : e.exclude fn = true
  · rw [if_pos hex] at h
    injection h with h
    exact h ▸ hInv
  · rw [if_neg hex] at h
    by_cases hhf : e.hashFails fn = true
    · rw [if_pos hhf] at h
      injection h with h
      exact h ▸ hInv
    · rw [if_neg hhf] at h
      cases hl : lookup? st.collisionCheck (e.hashFn (e.fs fn)) with
      | some recorded =>
        rw [hl] at h
        dsimp only at h
        by_cases heq : e.fs fn = e.fs recorded
        · rw [if_pos heq] at h
          rcases recordFile_ok _ _ _ _ _ h with ⟨_, _, rfl⟩ | ⟨bl, rfl⟩
          · exact hInv
          · refine inv_record e st fn bl hInv ?_
            intro p hp
            rw [hl] at hp
            injection hp with hp
            exact hp ▸ heq
        · rw [if_neg heq] at h
          exact absurd h (by simp)
      | none =>
        rw [hl] at h
        dsimp only at h
        rcases recordFile_ok _ _ _ _ _ h with ⟨_, _, rfl⟩ | ⟨bl, rfl⟩
        · exact hInv
        · refine inv_record e st fn bl hInv ?_
          intro p hp
          rw [hl] at hp
          exact absurd hp (by simp)

theorem runFiles_nil (e : Env) (st : BState) : runFiles e [] st = .ok st := rfl

theorem runFiles_cons (e : Env) (fn : String) (rest : List String)
    (st : BState) :
    runFiles e (fn :: rest) st =
      match processFile e st fn with
      | .error c => .error (c, st)
      | .ok st1 => runFiles e rest st1 := rfl

theorem inv_runFiles (e : Env) (files : List String) (st st1 : BState)
    (hInv : Inv e st) (h : runFiles e files st = .ok st1) : Inv e st1 := by
  induction files generalizing st with
  | nil =>
    rw [runFiles_nil] at h
    injection h with h
    exact h ▸ hInv
  | cons fn rest ih =>
    rw [runFiles_cons] at h
    cases hp : processFile e st fn with
    | error c => rw [hp] at h; exact absurd h (by simp)
    | ok st2 =>
      rw [hp] at h
      dsimp only at h
      exact ih st2 (inv_processFile e st st2 fn hInv hp) h

theorem runFiles_append (e : Env) (l1 l2 : List String) (st : BState) :
    runFiles e (l1 ++ l2) st =
      Except.bind (runFiles e l1 st) (fun st1 => runFiles e l2 st1) := by
  induction l1 generalizing st with
  | nil => rfl
  | cons fn rest ih =>
    rw [List.cons_append, runFiles_cons, runFiles_cons]
    cases hp : processFile e st fn with
    | error c => rfl
    | ok st2 => exact ih st2

theorem sameAs_processFile (e : Env) (a q : String) (st st1 : BState)
    (hS : SameAs e a st) (h : processFile e st q = .ok st1) :
    SameAs e a st1 := by
  obtain ⟨p, hlp, hpc⟩ := hS
  unfold processFile at h
  by_cases hex : e.exclude q = true
  · rw [if_pos hex] at h
    injection h with h
    exact h ▸ ⟨p, hlp, hpc⟩
  · rw [if_neg hex] at h
    by_cases hhf : e.hashFails q = true
    · rw [if_pos hhf] at h
      injection h with h
      exact h ▸ ⟨p, hlp, hpc⟩
    · rw [if_neg hhf] at h
      cases hl : lookup? st.collisionCheck (e.hashFn (e.fs q)) with
      | some recorded =>
        rw [hl] at h
        dsimp only at h
        by_cases heq : e.fs q = e.fs recorded
        · rw [if_pos heq] at h
          rcases recordFile_ok _ _ _ _ _ h with ⟨_, _, rfl⟩ | ⟨bl, rfl⟩
          · exact ⟨p, hlp, hpc⟩
          · by_cases hqa : e.hashFn (e.fs a) = e.hashFn (e.fs q)
            · refine ⟨q, ?_, ?_⟩
              · rw [hqa, lookup?_dictInsert_self]
              · rw [hqa] at hlp
                rw [hl] at hlp
                injection hlp with hlp
                rw [heq, hlp]
                exact hpc
            · exact ⟨p, by rw [lookup?_dictInsert_ne _ _ _ _ hqa]; exact hlp,
                hpc⟩
        · rw [if_neg heq] at h
          exact absurd h (by simp)
      | none =>
        rw [hl] at h
        dsimp only at h
        rcases recordFile_ok _ _ _ _ _ h with ⟨_, _, rfl⟩ | ⟨bl, rfl⟩
        · exact ⟨p, hlp, hpc⟩
        · by_cases hqa : e.hashFn (e.fs a) = e.hashFn (e.fs q)
          · rw [hqa, hl] at hlp
            exact absurd hlp (by simp)
          · exact ⟨p, by rw [lookup?_dictInsert_ne _ _ _ _ hqa]; exact hlp,
              hpc⟩

theorem sameAs_establish (e : Env) (a : String) (st st1 : BState)
    (hex : e.exclude a = false) (hhf : e.hashFails a = false)
    (hsp : e.cpSpawnFails a = false)
    (h : processFile e st a = .ok st1) : SameAs e a st1 := by
  unfold processFile at h
  rw [if_neg (by simp [hex]), if_neg (by simp [hhf])] at h
  cases hl : lookup? st.collisionCheck (e.hashFn (e.fs a)) with
  | some recorded =>
    rw [hl] at h
    dsimp only at h
    by_cases heq : e.fs a = e.fs recorded
    · rw [if_pos heq] at h
      rcases recordFile_ok _ _ _ _ _ h with ⟨_, _, rfl⟩ | ⟨bl, rfl⟩
      · exact ⟨recorded, hl, heq.symm⟩
      · exact ⟨a, lookup?_dictInsert_self _ _ _, rfl⟩
    · rw [if_neg heq] at h
      exact absurd h (by simp)
  | none =>
    rw [hl] at h
    dsimp only at h
    rcases recordFile_ok _ _ _ _ _ h with ⟨_, hs, rfl⟩ | ⟨bl, rfl⟩
    · rw [hsp] at hs
      exact absurd hs (by simp)
    · exact ⟨a, lookup?_dictInsert_self _ _ _, rfl⟩

theorem sameAs_runFiles (e : Env) (a : String) (files : List String)
    (st st1 : BState) (hS : SameAs e a st)
    (h : runFiles e files st = .ok st1) : SameAs e a st1 := by
  induction files generalizing st with
  | nil =>
    rw [runFiles_nil] at h
    injection h with h
    exact h ▸ hS
  | cons fn rest ih =>
    rw [runFiles_cons] at h
    cases hp : processFile e st fn with
    | error c => rw [hp] at h; exact absurd h (by simp)
    | ok st2 =>
      rw [hp] at h
      dsimp only at h
      exact ih st2 (sameAs_processFile e a fn st st2 ⟨_, hS.choose_spec⟩ hp) h

theorem processFile_collision (e : Env) (a b : String) (st : BState)
    (hS : SameAs e a st) (hex : e.exclude b = false)
    (hhf : e.hashFails b = false)
    (hdig : e.hashFn (e.fs b) = e.hashFn (e.fs a))
    (hcont : e.fs b ≠ e.fs a) :
    ∃ c, processFile e st b = .error c := by
  obtain ⟨p, hlp, hpc⟩ := hS
  refine ⟨⟨b, p, e.hashFn (e.fs a)⟩, ?_⟩
  unfold processFile
  rw [if_neg (by simp [hex]), if_neg (by simp [hhf]), hdig, hlp]
  dsimp only
  rw [if_neg (fun hh => hcont (hh.trans hpc))]

theorem recordFile_mc (e : Env) (st : BState) (fn hsh : String)
    (hsp : e.cpSpawnFails fn = false) :
    ∃ bl, recordFile e st fn hsh =
      .ok ⟨dictInsert st.manifest fn hsh,
           dictInsert st.collisionCheck hsh fn, bl⟩ := by
  unfold recordFile
  by_cases hb : blobExists st.blobs hsh = true
  · rw [if_pos hb]
    exact ⟨st.blobs, rfl⟩
  · rw [if_neg hb, if_neg (by simp [hsp])]
    exact ⟨_, rfl⟩

theorem processFile_mc_congr (e : Env) (fn : String) (st1 st2 r1 : BState)
    (hsp : e.cpSpawnFails fn = false)
    (hm : st1.manifest = st2.manifest)
    (hcc : st1.collisionCheck = st2.collisionCheck)
    (h : processFile e st1 fn = .ok r1) :
    ∃ r2, processFile e st2 fn = .ok r2 ∧ r2.manifest = r1.manifest ∧
      r2.collisionCheck = r1.collisionCheck := by
  unfold processFile at h ⊢
  by_cases hex : e.exclude fn = true
  · rw [if_pos hex] at h ⊢
    injection h with h
    exact ⟨st2, rfl, by rw [← h, hm], by rw [← h, hcc]⟩
  · rw [if_neg hex] at h ⊢
    by_cases hhf : e.hashFails fn = true
    · rw [if_pos hhf] at h ⊢
      injection h with h
      exact ⟨st2, rfl, by rw [← h, hm], by rw [← h, hcc]⟩
    · rw [if_neg hhf] at h ⊢
      rw [← hcc]
      cases hl : lookup? st1.collisionCheck (e.hashFn (e.fs fn)) with
      | some recorded =>
        rw [hl] at h
        dsimp only at h ⊢
        by_cases heq : e.fs fn = e.fs recorded
        · rw [if_pos heq] at h ⊢
          obtain ⟨bl1, hb1⟩ := recordFile_mc e st1 fn (e.hashFn (e.fs fn)) hsp
          obtain ⟨bl2, hb2⟩ := recordFile_mc e st2 fn (e.hashFn (e.fs fn)) hsp
          rw [hb1] at h
          injection h with h
          refine ⟨_, hb2, ?_, ?_⟩
          · rw [← h]
            dsimp only
            rw [hm]
          · rw [← h]
            dsimp only
            rw [hcc]
        · rw [if_neg heq] at h
          exact absurd h (by simp)
      | none =>
        rw [hl] at h
        dsimp only at h ⊢
        obtain ⟨bl1, hb1⟩ := recordFile_mc e st1 fn (e.hashFn (e.fs fn)) hsp
        obtain ⟨bl2, hb2⟩ := recordFile_mc e st2 fn (e.hashFn (e.fs fn)) hsp
        rw [hb1] at h
        injection h with h
        refine ⟨_, hb2, ?_, ?_⟩
        · rw [← h]
          dsimp only
          rw [hm]
        · rw [← h]
          dsimp only
          rw [hcc]

theorem runFiles_mc_congr (e : Env) (files : List String)
    (hsp : ∀ p ∈ files, e.cpSpawnFails p = false) :
    ∀ st1 st2 r1 : BState, st1.manifest = st2.manifest →
      st1.collisionCheck = st2.collisionCheck →
      runFiles e files st1 = .ok r1 →
      ∃ r2, runFiles e files st2 = .ok r2 ∧ r2.manifest = r1.manifest ∧
        r2.collisionCheck = r1.collisionCheck := by
  induction files with
  | nil =>
    intro st1 st2 r1 hm hcc h
    rw [runFiles_nil] at h
    injection h with h
    exact ⟨st2, rfl, by rw [← h, hm], by rw [← h, hcc]⟩
  | cons fn rest ih =>
    intro st1 st2 r1 hm hcc h
    rw [runFiles_cons] at h
    cases hp : processFile e st1 fn with
    | error c =>
      rw [hp] at h
      exact absurd h (by simp)
    | ok s1 =>
      rw [hp] at h
      dsimp only at h
      obtain ⟨s2, hp2, hm2, hcc2⟩ :=
        processFile_mc_congr e fn st1 st2 s1 (hsp fn (by simp)) hm hcc hp
      obtain ⟨r2, hr2, hrm, hrcc⟩ :=
        ih (fun p hp => hsp p (by simp [hp])) s1 s2 r1 hm2.symm hcc2.symm h
      refine ⟨r2, ?_, hrm, hrcc⟩
      rw [runFiles_cons, hp2]
      exact hr2

theorem recordFile_blobs (e : Env) (st st1 : BState) (fn hsh : String)
    (h : recordFile e st fn hsh = .ok st1) :
    st1.blobs = st.blobs ∨
      st1.blobs = st.blobs ++ [⟨hsh.take 2, hsh, e.fs fn⟩] := by
  unfold recordFile at h
  by_cases hb : blobExists st.blobs hsh = true
  · rw [if_pos hb] at h
    injection h with h
    exact Or.inl (by rw [← h])
  · rw [if_neg hb] at h
    by_cases hs : e.cpSpawnFails fn = true
    · rw [if_pos hs] at h
      injection h with h
      exact Or.inl (by rw [← h])
    · rw [if_neg hs] at h
      injection h with h
      by_cases hx : e.cpExit fn = 0
      · refine Or.inr ?_
        rw [← h]
        dsimp only
        rw [if_pos hx]
      · refine Or.inl ?_
        rw [← h]
        dsimp only
        rw [if_neg hx]

theorem processFile_blobs (e : Env) (st st1 : BState) (fn : String)
    (h : processFile e st fn = .ok st1) :
    st1.blobs = st.blobs ∨
      st1.blobs = st.blobs ++
        [⟨(e.hashFn (e.fs fn)).take 2, e.hashFn (e.fs fn), e.fs fn⟩] := by
  unfold processFile at h
  by_cases hex : e.exclude fn = true
  · rw [if_pos hex] at h
    injection h with h
    exact Or.inl (by rw [← h])
  · rw [if_neg hex] at h
    by_cases hhf : e.hashFails fn = true
    · rw [if_pos hhf] at h
      injection h with h
      exact Or.inl (by rw [← h])
    · rw [if_neg hhf] at h
      cases hl : lookup? st.collisionCheck (e.hashFn (e.fs fn)) with
      | some recorded =>
        rw [hl] at h
        dsimp only at h
        by_cases heq : e.fs fn = e.fs recorded
        · rw [if_pos heq] at h
          exact recordFile_blobs e st st1 fn _ h
        · rw [if_neg heq] at h
          exact absurd h (by simp)
      | none =>
        rw [hl] at h
        dsimp only at h
        exact recordFile_blobs e st st1 fn _ h

theorem blobExists_append_of_true (l l2 : List Blob) (hsh : String)
    (h : blobExists l hsh = true) : blobExists (l ++ l2) hsh = true := by
  unfold blobExists at h ⊢
  rw [List.any_append, h]
  rfl

theorem processFile_blob_mono (e : Env) (st st1 : BState) (fn hsh : String)
    (h : processFile e st fn = .ok st1)
    (hb : blobExists st.blobs hsh = true) :
    blobExists st1.blobs hsh = true := by
  rcases processFile_blobs e st st1 fn h with hbl | hbl
  · rw [hbl]
    exact hb
  · rw [hbl]
    exact blobExists_append_of_true _ _ _ hb

theorem runFiles_blob_mono (e : Env) (files : List String) (st r : BState)
    (h : runFiles e files st = .ok r) (hsh : String)
    (hb : blobExists st.blobs hsh = true) :
    blobExists r.blobs hsh = true := by
  induction files generalizing st with
  | nil =>
    rw [runFiles_nil] at h
    injection h with h
    exact h ▸ hb
  | cons fn rest ih =>
    rw [runFiles_cons] at h
    cases hp : processFile e st fn with
    | error c =>
      rw [hp] at h
      exact absurd h (by simp)
    | ok s1 =>
      rw [hp] at h
      dsimp only at h
      exact ih s1 h (processFile_blob_mono e st s1 fn hsh hp hb)

theorem recordFile_writes (e : Env) (st st1 : BState) (fn hsh : String)
    (hsp : e.cpSpawnFails fn = false) (hx : e.cpExit fn = 0)
    (h : recordFile e st fn hsh = .ok st1) :
    blobExists st1.blobs hsh = true := by
  unfold recordFile at h
  by_cases hb : blobExists st.blobs hsh = true
  · rw [if_pos hb] at h
    injection h with h
    rw [← h]
    exact hb
  · rw [if_neg hb, if_neg (by simp [hsp])] at h
    injection h with h
    rw [← h]
    dsimp only
    rw [if_pos hx]
    simp [blobExists, List.any_append]

theorem processFile_writes (e : Env) (st st1 : BState) (fn : String)
    (hsp : e.cpSpawnFails fn = false) (hx : e.cpExit fn = 0)
    (hexcl : e.exclude fn = false) (hhf : e.hashFails fn = false)
    (h : processFile e st fn = .ok st1) :
    blobExists st1.blobs (e.hashFn (e.fs fn)) = true := by
  unfold processFile at h
  rw [if_neg (by simp [hexcl]), if_neg (by simp [hhf])] at h
  cases hl : lookup? st.collisionCheck (e.hashFn (e.fs fn)) with
  | some recorded =>
    rw [hl] at h
    dsimp only at h
    by_cases heq : e.fs fn = e.fs recorded
    · rw [if_pos heq] at h
      exact recordFile_writes e st st1 fn _ hsp hx h
    · rw [if_neg heq] at h
      exact absurd h (by simp)
  | none =>
    rw [hl] at h
    dsimp only at h
    exact recordFile_writes e st st1 fn _ hsp hx h

theorem runFiles_blob_present (e : Env) (files : List String) (st r : BState)
    (hsp : ∀ p ∈ files, e.cpSpawnFails p = false)
    (hx : ∀ p ∈ files, e.cpExit p = 0)
    (h : runFiles e files st = .ok r) :
    ∀ p ∈ files, e.exclude p = false → e.hashFails p = false →
      blobExists r.blobs (e.hashFn (e.fs p)) = true := by
  induction files generalizing st with
  | nil =>
    intro p hp
    simp at hp
  | cons fn rest ih =>
    rw [runFiles_cons] at h
    cases hq : processFile e st fn with
    | error c =>
      rw [hq] at h
      exact absurd h (by simp)
    | ok s1 =>
      rw [hq] at h
      dsimp only at h
      intro p hp hexcl hhf
      rcases List.mem_cons.mp hp with rfl | hp
      · exact runFiles_blob_mono e rest s1 r h _
          (processFile_writes e st s1 p (hsp p (by simp)) (hx p (by simp))
            hexcl hhf hq)
      · exact ih s1 (fun q hq2 => hsp q (by simp [hq2]))
          (fun q hq2 => hx q (by simp [hq2])) h p hp hexcl hhf

theorem runFiles_no_writes (e : Env) (files : List String) :
    ∀ st r : BState,
      (∀ p ∈ files, e.exclude p = false → e.hashFails p = false →
        blobExists st.blobs (e.hashFn (e.fs p)) = true) →
      runFiles e files st = .ok r → r.blobs = st.blobs := by
  induction files with
  | nil =>
    intro st r hall hr
    rw [runFiles_nil] at hr
    injection hr with hr
    rw [← hr]
  | cons fn rest ih =>
    intro st r hall hr
    rw [runFiles_cons] at hr
    cases hq : processFile e st fn with
    | error c =>
      rw [hq] at hr
      exact absurd hr (by simp)
    | ok s1 =>
      rw [hq] at hr
      dsimp only at hr
      have hs1 : s1.blobs = st.blobs := by
        unfold processFile at hq
        by_cases hex : e.exclude fn = true
        · rw [if_pos hex] at hq
          injection hq with hq
          rw [← hq]
        · rw [if_neg hex] at hq
          by_cases hhf : e.hashFails fn = true
          · rw [if_pos hhf] at hq
            injection hq with hq
            rw [← hq]
          · rw [if_neg hhf] at hq
            have hb : blobExists st.blobs (e.hashFn (e.fs fn)) = true :=
              hall fn (by simp) (Bool.eq_false_iff.mpr hex)
                (Bool.eq_false_iff.mpr hhf)
            cases hl : lookup? st.collisionCheck (e.hashFn (e.fs fn)) with
            | some recorded =>
              rw [hl] at hq
              dsimp only at hq
              by_cases heq : e.fs fn = e.fs recorded
              · rw [if_pos heq] at hq
                unfold recordFile at hq
                rw [if_pos hb] at hq
                injection hq with hq
                rw [← hq]
              · rw [if_neg heq] at hq
                exact absurd hq (by simp)
            | none =>
              rw [hl] at hq
              dsimp only at hq
              unfold recordFile at hq
              rw [if_pos hb] at hq
              injection hq with hq
              rw [← hq]
      rw [ih s1 r ?_ hr, hs1]
      intro p hp hexcl hhf
      rw [hs1]
      exact hall p (by simp [hp]) hexcl hhf

theorem processFile_manifest (e : Env) (st st1 : BState) (q : String)
    (h : processFile e st q = .ok st1) :
    st1.manifest = st.manifest ∨
      st1.manifest = dictInsert st.manifest q (e.hashFn (e.fs q)) := by
  unfold processFile at h
  by_cases hex : e.exclude q = true
  · rw [if_pos hex] at h
    injection h with h
    exact Or.inl (by rw [← h])
  · rw [if_neg hex] at h
    by_cases hhf : e.hashFails q = true
    · rw [if_pos hhf] at h
      injection h with h
      exact Or.inl (by rw [← h])
    · rw [if_neg hhf] at h
      cases hl : lookup? st.collisionCheck (e.hashFn (e.fs q)) with
      | some recorded =>
        rw [hl] at h
        dsimp only at h
        by_cases heq : e.fs q = e.fs recorded
        · rw [if_pos heq] at h
          rcases recordFile_ok _ _ _ _ _ h with ⟨_, _, rfl⟩ | ⟨bl, rfl⟩
          · exact Or.inl rfl
          · exact Or.inr rfl
        · rw [if_neg heq] at h
          exact absurd h (by simp)
      | none =>
        rw [hl] at h
        dsimp only at h
        rcases recordFile_ok _ _ _ _ _ h with ⟨_, _, rfl⟩ | ⟨bl, rfl⟩
        · exact Or.inl rfl
        · exact Or.inr rfl

theorem runFiles_excluded_not_in_manifest (e : Env) (fn : String)
    (hfn : e.exclude fn = true) :
    ∀ (files : List String) (st st1 : BState),
      runFiles e files st = .ok st1 → lookup? st.manifest fn = none →
      lookup? st1.manifest fn = none := by
  intro files
  induction files with
  | nil =>
    intro st st1 h hn
    rw [runFiles_nil] at h
    injection h with h
    rw [← h]
    exact hn
  | cons q rest ih =>
    intro st st1 h hn
    rw [runFiles_cons] at h
    cases hq : processFile e st q with
    | error c =>
      rw [hq] at h
      exact absurd h (by simp)
    | ok s1 =>
      rw [hq] at h
      dsimp only at h
      refine ih s1 st1 h ?_
      by_cases hqfn : q = fn
      · subst hqfn
        unfold processFile at hq
        rw [if_pos hfn] at hq
        injection hq with hq
        rw [← hq]
        exact hn
      · rcases processFile_manifest e st s1 q hq with hm | hm
        · rw [hm]
          exact hn
        · rw [hm, lookup?_dictInsert_ne _ _ _ _ (fun hh => hqfn hh.symm)]
          exact hn

theorem backup_ok_nopurge (e : Env) (files : List String) (dest : Dest)
    (st : BState) (hrun : runFiles e files ⟨[], [], dest.blobs⟩ = .ok st) :
    backup e files dest false =
      .ok ⟨st.blobs, some (manifestLines st.manifest)⟩ := by
  unfold backup
  rw [hrun]
  rfl

theorem backup_ok_purge (e : Env) (files : List String) (dest : Dest)
    (st : BState) (hrun : runFiles e files ⟨[], [], dest.blobs⟩ = .ok st) :
    backup e files dest true =
      .ok ⟨purgeBlobs st.blobs st.collisionCheck,
           some (manifestLines st.manifest)⟩ := by
  unfold backup
  rw [hrun]
  rfl

theorem backup_error (e : Env) (files : List String) (dest : Dest)
    (purgeFlag : Bool) (er : Collision × BState)
    (hrun : runFiles e files ⟨[], [], dest.blobs⟩ = .error er) :
    backup e files dest purgeFlag =
      .error (er.1, ⟨er.2.blobs, dest.manifestFile⟩) := by
  obtain ⟨c, stE⟩ := er
  unfold backup
  rw [hrun]

theorem restore_nil (sel blobPresent : String → Bool) (destDir : String) :
    restore sel blobPresent destDir [] = ([], none) := rfl

theorem restore_cons (sel blobPresent : String → Bool) (destDir hsh fn : String)
    (rest : List (String × String)) :
    restore sel blobPresent destDir ((hsh, fn) :: rest) =
      if sel fn then
        if blobPresent hsh then
          (osPathJoin destDir fn :: (restore sel blobPresent destDir rest).1,
           (restore sel blobPresent destDir rest).2)
        else ([], some hsh)
      else restore sel blobPresent destDir rest := rfl

/-- C1 (counterexample): two files observed with the same digest but
    different content do not always abort the run.  If the copy of the
    first file is skipped because `subprocess.call` raised, the first
    file never enters `collision_check`, the second colliding file is
    accepted without any content comparison, the run completes, and a
    manifest is written. -/
theorem claim1_counterexample :
    envSkipCollide.hashFn (envSkipCollide.fs "/a") =
      envSkipCollide.hashFn (envSkipCollide.fs "/b") ∧
    envSkipCollide.fs "/a" ≠ envSkipCollide.fs "/b" ∧
    envSkipCollide.exclude "/a" = false ∧
    envSkipCollide.exclude "/b" = false ∧
    envSkipCollide.hashFails "/a" = false ∧
    envSkipCollide.hashFails "/b" = false ∧
    backup envSkipCollide ["/a", "/b"] ⟨[], some ["old"]⟩ false =
      .ok ⟨[⟨"hh", "hh", [1]⟩], some ["hh\t/b"]⟩ :=
  ⟨rfl, by decide, rfl, rfl, rfl, rfl, rfl⟩

/-- C1 (amended): if two files with the same digest but different content
    are scanned, and the earlier of them was actually accepted into the
    run (`subprocess.call` did not raise for it, so it was recorded in
    `collision_check`), then the run aborts with the hash-collision
    exception and the manifest file of the destination is unchanged. -/
theorem claim1_collision_aborts_without_manifest (e : Env)
    (l1 l2 l3 : List String) (a b : String) (dest : Dest) (purgeFlag : Bool)
    (hea : e.exclude a = false) (heb : e.exclude b = false)
    (hha : e.hashFails a = false) (hhb : e.hashFails b = false)
    (hsa : e.cpSpawnFails a = false)
    (hdig : e.hashFn (e.fs b) = e.hashFn (e.fs a))
    (hcont : e.fs b ≠ e.fs a) :
    ∃ cd, backup e (l1 ++ a :: (l2 ++ b :: l3)) dest purgeFlag = .error cd ∧
      cd.2.manifestFile = dest.manifestFile := by
  have hrun : ∃ er,
      runFiles e (l1 ++ a :: (l2 ++ b :: l3)) ⟨[], [], dest.blobs⟩ =
        .error er := by
    rw [runFiles_append]
    cases h1 : runFiles e l1 ⟨[], [], dest.blobs⟩ with
    | error er => exact ⟨er, rfl⟩
    | ok stA =>
      show ∃ er, runFiles e (a :: (l2 ++ b :: l3)) stA = .error er
      rw [runFiles_cons]
      cases h2 : processFile e stA a with
      | error c => exact ⟨(c, stA), rfl⟩
      | ok stB =>
        have hSB : SameAs e a stB := sameAs_establish e a stA stB hea hha hsa h2
        show ∃ er, runFiles e (l2 ++ b :: l3) stB = .error er
        rw [runFiles_append]
        cases h3 : runFiles e l2 stB with
        | error er => exact ⟨er, rfl⟩
        | ok stC =>
          have hSC : SameAs e a stC := sameAs_runFiles e a l2 stB stC hSB h3
          obtain ⟨c, hc⟩ := processFile_collision e a b stC hSC heb hhb hdig hcont
          show ∃ er, runFiles e (b :: l3) stC = .error er
          rw [runFiles_cons, hc]
          exact ⟨(c, stC), rfl⟩
  obtain ⟨er, her⟩ := hrun
  exact ⟨(er.1, ⟨er.2.blobs, dest.manifestFile⟩),
    backup_error e _ dest purgeFlag er her, rfl⟩

/-- Witness for the amended C1 theorem: a concrete run with two
    different files forced to the same digest aborts and leaves the
    previous manifest in place. -/
theorem claim1_witness :
    envCollide.fs "/b" ≠ envCollide.fs "/a" ∧
    ∃ cd, backup envCollide ["/a", "/b"] ⟨[], some ["old"]⟩ false =
        .error cd ∧ cd.2.manifestFile = some ["old"] :=
  ⟨by decide,
   claim1_collision_aborts_without_manifest envCollide [] [] [] "/a" "/b"
     ⟨[], some ["old"]⟩ false rfl rfl rfl rfl rfl rfl (by decide)⟩

/-- C2 (code bug): a file whose blob copy fails with a nonzero cp exit
    status is still registered in the manifest.  `subprocess.call` does
    not raise on a failing cp, the script discards the returned status,
    and the `except` branch that would skip the file never runs: here cp
    exits 1, the store stays empty, yet the manifest registers `/a`. -/
theorem claim2_cp_failure_still_registered :
    envCpFail.cpExit "/a" = 1 ∧
    backup envCpFail ["/a"] ⟨[], none⟩ false = .ok ⟨[], some ["abcd\t/a"]⟩ :=
  ⟨rfl, rfl⟩

/-- C3 (counterexample): a missing blob does not merely skip its entry.
    With two entries whose first blob is absent and whose second blob is
    present, `restore` raises at the first entry and restores nothing at
    all — the remaining entry is not restored. -/
theorem claim3_counterexample :
    restore (fun _ => true) (fun hsh => hsh == "h2") "/t"
      [("h1", "/x/a"), ("h2", "/x/b")] = ([], some "h1") ∧
    ("h2" == "h2") = true :=
  ⟨rfl, rfl⟩

/-- C3 (amended): `hsh.copy(fn)` raises on a missing blob and nothing in
    `restore` catches it, so the loop stops at the first selected entry
    whose blob is absent: entries before it stay restored, the error
    reports that digest, and no later entry is processed. -/
theorem claim3_missing_blob_aborts (sel blobPresent : String → Bool)
    (destDir : String) (l1 l2 : List (String × String)) (hsh fn : String)
    (hsel : sel fn = true) (habs : blobPresent hsh = false)
    (hok : (restore sel blobPresent destDir l1).2 = none) :
    restore sel blobPresent destDir (l1 ++ (hsh, fn) :: l2) =
      ((restore sel blobPresent destDir l1).1, some hsh) := by
  induction l1 with
  | nil =>
    rw [List.nil_append, restore_cons, if_pos hsel, if_neg (by simp [habs])]
    rfl
  | cons e0 l1 ih =>
    obtain ⟨h0, f0⟩ := e0
    rw [List.cons_append, restore_cons, restore_cons]
    by_cases hs0 : sel f0 = true
    · rw [if_pos hs0, if_pos hs0]
      by_cases hp0 : blobPresent h0 = true
      · rw [if_pos hp0, if_pos hp0]
        have hok1 : (restore sel blobPresent destDir l1).2 = none := by
          rw [restore_cons, if_pos hs0, if_pos hp0] at hok
          exact hok
        rw [ih hok1]
      · exfalso
        rw [restore_cons, if_pos hs0, if_neg hp0] at hok
        simp at hok
    · rw [if_neg hs0, if_neg hs0]
      refine ih ?_
      rw [restore_cons, if_neg hs0] at hok
      exact hok

/-- Witness for the amended C3 theorem: the entry before the missing
    blob stays restored, everything after is dropped. -/
theorem claim3_witness :
    restore (fun _ => true) (fun hsh => hsh == "h2") "/t"
      ([("h2", "x/b")] ++ ("h1", "x/a") :: []) = (["/t/x/b"], some "h1") := by
  have h := claim3_missing_blob_aborts (fun _ => true) (fun hsh => hsh == "h2")
    "/t" [("h2", "x/b")] [] "h1" "x/a" rfl rfl rfl
  rw [h]
  decide

/-- C4 (code bug): manifest paths are absolute, and `dest / fn` is
    `os.path.join`, which discards the target directory when the right
    operand is absolute.  Restoring the entry `/a/x.txt` into target
    `/restore` writes to `/a/x.txt` itself — the original absolute
    location, not under the target directory as the docstring says. -/
theorem claim4_absolute_path_escapes_target :
    restore (fun _ => true) (fun _ => true) "/restore" [("h1", "/a/x.txt")] =
      (["/a/x.txt"], none) ∧
    "/restore".data.isPrefixOf "/a/x.txt".data = false ∧
    osPathJoin "/restore" "/a/x.txt" = "/a/x.txt" :=
  ⟨rfl, by decide, rfl⟩

/-- C5 (counterexample): the manifest write is not atomic.  While
    `write_lines` runs at `dest/manifest`, a one-line prefix of a
    two-line manifest is observable under the final name; it is neither
    the previous manifest contents nor the complete new manifest. -/
theorem claim5_counterexample :
    ["aa\t/a"] ∈ manifestWriteStates (manifestLines [("/a", "aa"), ("/b", "bb")]) ∧
    ["aa\t/a"] ≠ ["old"] ∧
    ["aa\t/a"] ≠ manifestLines [("/a", "aa"), ("/b", "bb")] := by
  refine ⟨by decide, by decide, by decide⟩

/-- C5 (amended): the serialized manifest is written directly at its
    final name, so during the write the file under `dest/manifest` holds
    exactly the prefixes of the new line list: the empty file (the
    previous manifest is destroyed as soon as the write starts), every
    intermediate prefix, and finally the complete manifest.  There is no
    temporary file and no rename. -/
theorem claim5_write_in_place (m : List (String × String)) :
    [] ∈ manifestWriteStates (manifestLines m) ∧
    manifestLines m ∈ manifestWriteStates (manifestLines m) ∧
    ∀ s ∈ manifestWriteStates (manifestLines m),
      ∃ n, s = (manifestLines m).take n := by
  refine ⟨?_, ?_, ?_⟩
  · exact List.mem_map.mpr ⟨0, List.mem_range.mpr (Nat.succ_pos _), rfl⟩
  · exact List.mem_map.mpr ⟨(manifestLines m).length,
      List.mem_range.mpr (Nat.lt_succ_self _), List.take_length _⟩
  · intro s hs
    rcases List.mem_map.mp hs with ⟨n, _, hn⟩
    exact ⟨n, hn.symm⟩

/-- Witness for the amended C5 theorem at a concrete one-entry manifest. -/
theorem claim5_witness :
    [] ∈ manifestWriteStates (manifestLines [("/a", "aa")]) ∧
    manifestLines [("/a", "aa")] ∈
      manifestWriteStates (manifestLines [("/a", "aa")]) ∧
    ∀ s ∈ manifestWriteStates (manifestLines [("/a", "aa")]),
      ∃ n, s = (manifestLines [("/a", "aa")]).take n :=
  claim5_write_in_place [("/a", "aa")]

/-- C6 (confirmed): after a purging run, every blob of the post-scan
    store whose name is a digest referenced by the freshly built manifest
    is still present, and every blob whose name is referenced by no
    manifest entry has been removed. -/
theorem claim6_purge_safety (e : Env) (files : List String) (dest d : Dest)
    (st : BState)
    (hrun : runFiles e files ⟨[], [], dest.blobs⟩ = .ok st)
    (hbk : backup e files dest true = .ok d) :
    ∀ b ∈ st.blobs,
      ((∃ p, (p, b.name) ∈ st.manifest) → b ∈ d.blobs) ∧
      ((∀ p, (p, b.name) ∉ st.manifest) → b ∉ d.blobs) := by
  have hInv := inv_runFiles e files _ st (inv_init e dest.blobs) hrun
  have hd : d = ⟨purgeBlobs st.blobs st.collisionCheck,
      some (manifestLines st.manifest)⟩ := by
    have hb := backup_ok_purge e files dest st hrun
    rw [hb] at hbk
    injection hbk with hbk
    exact hbk.symm
  subst hd
  intro b hb
  constructor
  · rintro ⟨p, hp⟩
    obtain ⟨q, hq⟩ := (hInv.keysEq b.name).mpr ⟨p, hp⟩
    show b ∈ purgeBlobs st.blobs st.collisionCheck
    unfold purgeBlobs
    refine List.mem_filter.mpr ⟨hb, ?_⟩
    exact List.any_eq_true.mpr ⟨(b.name, q), hq, by simp⟩
  · intro hnone hmem
    have hmem2 : b ∈ purgeBlobs st.blobs st.collisionCheck := hmem
    unfold purgeBlobs at hmem2
    have hany := (List.mem_filter.mp hmem2).2
    rcases List.any_eq_true.mp hany with ⟨kv, hkv, hk⟩
    simp only [decide_eq_true_eq] at hk
    have hcc : ∃ q, (b.name, q) ∈ st.collisionCheck :=
      ⟨kv.2, by rw [← hk]; exact hkv⟩
    rcases (hInv.keysEq b.name).mp hcc with ⟨p, hp⟩
    exact hnone p hp

/-- Witness for C6 at a concrete purging run: the referenced blob
    survives, the unreferenced pre-existing blob is deleted. -/
theorem claim6_witness :
    (⟨"ab", "abcd", [1]⟩ : Blob) ∈
      (⟨[⟨"ab", "abcd", [1]⟩], some ["abcd\t/a"]⟩ : Dest).blobs ∧
    (⟨"zz", "zzzz", [9]⟩ : Blob) ∉
      (⟨[⟨"ab", "abcd", [1]⟩], some ["abcd\t/a"]⟩ : Dest).blobs := by
  have h := claim6_purge_safety envOne ["/a"] ⟨[⟨"zz", "zzzz", [9]⟩], none⟩
    ⟨[⟨"ab", "abcd", [1]⟩], some ["abcd\t/a"]⟩
    ⟨[("/a", "abcd")], [("abcd", "/a")],
     [⟨"zz", "zzzz", [9]⟩, ⟨"ab", "abcd", [1]⟩]⟩ rfl rfl
  constructor
  · exact (h ⟨"ab", "abcd", [1]⟩ (by simp)).1 ⟨"/a", by simp⟩
  · refine (h ⟨"zz", "zzzz", [9]⟩ (by simp)).2 ?_
    intro p hp
    simp at hp

/-- C7 (counterexample): `collision_check` does not map a digest to the
    first path observed with it.  After two identical files `/a` then
    `/b` share the digest `abcd`, the record maps `abcd` to `/b`, the
    most recently accepted path — not to the first-seen `/a`. -/
theorem claim7_counterexample :
    runFiles envDup ["/a", "/b"] ⟨[], [], []⟩ =
      .ok ⟨[("/a", "abcd"), ("/b", "abcd")], [("abcd", "/b")],
           [⟨"ab", "abcd", [1]⟩]⟩ ∧
    lookup? [("abcd", "/b")] "abcd" = some "/b" ∧ "/b" ≠ "/a" :=
  ⟨rfl, rfl, by decide⟩

/-- C7 (amended): throughout a run, `collision_check` maps each digest
    to the most recently accepted path with that digest; that path hashes
    to the digest, and every manifest entry under the same digest has
    byte-identical content to it, so comparing a later file against it is
    equivalent to comparing against the first-seen file. -/
theorem claim7_most_recent_agrees (e : Env) (files : List String)
    (bl : List Blob) (st : BState)
    (hrun : runFiles e files ⟨[], [], bl⟩ = .ok st) :
    ∀ hsh p, lookup? st.collisionCheck hsh = some p →
      e.hashFn (e.fs p) = hsh ∧
      ∀ q, (q, hsh) ∈ st.manifest → e.fs q = e.fs p := by
  have hInv := inv_runFiles e files _ st (inv_init e bl) hrun
  intro hsh p hl
  have hmem := mem_of_lookup?_some _ _ _ hl
  exact ⟨hInv.ccdigest hsh p hmem, fun q hq => hInv.agree hsh p q hmem hq⟩

/-- Witness for the amended C7 theorem at the concrete duplicate run. -/
theorem claim7_witness :
    envDup.hashFn (envDup.fs "/b") = "abcd" ∧
    ∀ q, (q, "abcd") ∈ [("/a", "abcd"), ("/b", "abcd")] →
      envDup.fs q = envDup.fs "/b" :=
  claim7_most_recent_agrees envDup ["/a", "/b"] []
    ⟨[("/a", "abcd"), ("/b", "abcd")], [("abcd", "/b")],
     [⟨"ab", "abcd", [1]⟩]⟩ rfl "abcd" "/b" rfl

/-- C8 (confirmed): when every file copy can be spawned and succeeds,
    running backup a second time over the unchanged source list into the
    destination produced by the first run returns exactly the first
    run's destination: the identical manifest file and the identical
    blob list (no new blobs are written). -/
theorem claim8_idempotent (e : Env) (files : List String) (dest d1 : Dest)
    (hsp : ∀ p ∈ files, e.cpSpawnFails p = false)
    (hx : ∀ p ∈ files, e.cpExit p = 0)
    (h1 : backup e files dest false = .ok d1) :
    backup e files d1 false = .ok d1 := by
  cases hr1 : runFiles e files ⟨[], [], dest.blobs⟩ with
  | error er =>
    rw [backup_error e files dest false er hr1] at h1
    exact absurd h1 (by simp)
  | ok st =>
    have hd1 : d1 = ⟨st.blobs, some (manifestLines st.manifest)⟩ := by
      have hb := backup_ok_nopurge e files dest st hr1
      rw [hb] at h1
      injection h1 with h1
      exact h1.symm
    obtain ⟨r2, hr2, hm2, hcc2⟩ := runFiles_mc_congr e files hsp
      ⟨[], [], dest.blobs⟩ ⟨[], [], d1.blobs⟩ st rfl rfl hr1
    have hpresent := runFiles_blob_present e files _ st hsp hx hr1
    have hnw : r2.blobs = d1.blobs := by
      refine runFiles_no_writes e files ⟨[], [], d1.blobs⟩ r2 ?_ hr2
      intro p hp hexcl hhf
      show blobExists d1.blobs (e.hashFn (e.fs p)) = true
      rw [hd1]
      exact hpresent p hp hexcl hhf
    have hb2 := backup_ok_nopurge e files d1 r2 hr2
    rw [hb2, hnw, hm2, hd1]

/-- Witness for C8 at a concrete one-file run. -/
theorem claim8_witness :
    backup envOne ["/a"] ⟨[⟨"ab", "abcd", [1]⟩], some ["abcd\t/a"]⟩ false =
      .ok ⟨[⟨"ab", "abcd", [1]⟩], some ["abcd\t/a"]⟩ :=
  claim8_idempotent envOne ["/a"] ⟨[], none⟩
    ⟨[⟨"ab", "abcd", [1]⟩], some ["abcd\t/a"]⟩ (by decide) (by decide) rfl

/-- C9 (confirmed): `make_predicate` returns true iff some pattern is
    found in the path, the empty pattern list excludes nothing, an
    excluded file is a complete no-op of the per-file body (no manifest
    entry, no collision record, no blob), and an excluded path is absent
    from the manifest of any completed run. -/
theorem claim9_exclusion :
    (∀ (search : String → String → Bool) (tests : List String) (fn : String),
      make_predicate search tests fn = true ↔
        ∃ t ∈ tests, search t fn = true) ∧
    (∀ (search : String → String → Bool) (fn : String),
      make_predicate search [] fn = false) ∧
    (∀ (e : Env) (st : BState) (fn : String), e.exclude fn = true →
      processFile e st fn = .ok st) ∧
    (∀ (e : Env) (files : List String) (bl : List Blob) (st1 : BState)
      (fn : String), e.exclude fn = true →
      runFiles e files ⟨[], [], bl⟩ = .ok st1 →
      lookup? st1.manifest fn = none) := by
  refine ⟨?_, ?_, ?_, ?_⟩
  · intro search tests fn
    simp [make_predicate, List.any_eq_true]
  · intro search fn
    rfl
  · intro e st fn h
    unfold processFile
    rw [if_pos h]
  · intro e files bl st1 fn h hrun
    exact runFiles_excluded_not_in_manifest e fn h files _ st1 hrun rfl

/-- Witness for C9 at the concrete exclusion environment: `/a` is
    excluded by the pattern list, its processing is a no-op, and it is
    absent from the manifest of the completed run over `/a` and `/b`. -/
theorem claim9_witness :
    (make_predicate envExcl.search ["/a"] "/a" = true ↔
      ∃ t ∈ ["/a"], envExcl.search t "/a" = true) ∧
    make_predicate envExcl.search ([] : List String) "/a" = false ∧
    processFile envExcl ⟨[], [], []⟩ "/a" = .ok ⟨[], [], []⟩ ∧
    lookup? [("/b", "efgh")] "/a" = none := by
  refine ⟨claim9_exclusion.1 envExcl.search ["/a"] "/a",
    claim9_exclusion.2.1 envExcl.search "/a",
    claim9_exclusion.2.2.1 envExcl ⟨[], [], []⟩ "/a" rfl, ?_⟩
  exact claim9_exclusion.2.2.2 envExcl ["/a", "/b"] []
    ⟨[("/b", "efgh")], [("efgh", "/b")], [⟨"ef", "efgh", [2]⟩]⟩ "/a" rfl rfl

/-- C10 (confirmed): the manifest of any completed run is a path-keyed
    map — its path keys are pairwise distinct, each recorded digest is
    the content digest of its path, and `manifest[fn] = hsh` (the dict
    assignment at line 80) makes the last written digest the one a
    lookup returns. -/
theorem claim10_manifest_keyed_map (e : Env) (files : List String)
    (bl : List Blob) (st : BState)
    (hrun : runFiles e files ⟨[], [], bl⟩ = .ok st) :
    (st.manifest.map Prod.fst).Nodup ∧
    (∀ p hsh, (p, hsh) ∈ st.manifest → hsh = e.hashFn (e.fs p)) ∧
    (∀ (m : List (String × String)) (p hsh : String),
      lookup? (dictInsert m p hsh) p = some hsh) := by
  have hInv := inv_runFiles e files _ st (inv_init e bl) hrun
  exact ⟨hInv.mkeys, hInv.mdigest,
    fun m p hsh => lookup?_dictInsert_self m p hsh⟩

/-- Witness for C10 at the concrete duplicate run: two distinct paths,
    one digest each, unique keys. -/
theorem claim10_witness :
    (([("/a", "abcd"), ("/b", "abcd")].map Prod.fst).Nodup) ∧
    (∀ p hsh, (p, hsh) ∈ [("/a", "abcd"), ("/b", "abcd")] →
      hsh = envDup.hashFn (envDup.fs p)) ∧
    (∀ (m : List (String × String)) (p hsh : String),
      lookup? (dictInsert m p hsh) p = some hsh) :=
  claim10_manifest_keyed_map envDup ["/a", "/b"] []
    ⟨[("/a", "abcd"), ("/b", "abcd")], [("abcd", "/b")],
     [⟨"ab", "abcd", [1]⟩]⟩ rfl

end BackupPy
